import Mathlib

/-
Verification of the workspace model of src/vs/platform/workspaces/common/workspaces.ts.

The file embeds the data model and the operations of that module as executable
Lean definitions and proves the stated properties about them.  Operations that
the module imports from elsewhere (the URI type and its parse and print
functions, the extended URI utility, the JSON edit utility, the path helpers
and the platform flags) are modelled from the specification, each marked by a
doc comment starting with the words Modelled from the spec.
-/

deriving instance DecidableEq for Except

/-- A URI value: scheme, authority and path components.  Query and fragment
are not used by the workspace code under study and are omitted. -/
structure Uri where
  scheme : String
  authority : String
  path : String
deriving DecidableEq

/-- Modelled from the spec: rendering of a URI back to a string as done by the
external URI type through its toString with encoding skipped. -/
def uriToString (u : Uri) : String :=
  u.scheme ++ "://" ++ u.authority ++ u.path

/-- Split a character list at the first occurrence of the scheme separator,
a colon followed by two slashes, returning the parts before and after it. -/
def findSchemeSep : List Char → Option (List Char × List Char)
  | [] => none
  | ':' :: '/' :: '/' :: rest => some ([], rest)
  | c :: cs =>
    match findSchemeSep cs with
    | some (pre, post) => some (c :: pre, post)
    | none => none

/-- Modelled from the spec: the external URI type's parse of a location
string.  It fails on a string without the scheme separator or with an invalid
scheme; the workspace code catches such failures per entry. -/
def uriParse (s : String) : Except String Uri :=
  match findSchemeSep s.data with
  | some (schemeChars, rest) =>
    if (!schemeChars.isEmpty) && schemeChars.all Char.isAlpha then
      .ok ⟨⟨schemeChars⟩, ⟨rest.takeWhile (fun c => c ≠ '/')⟩, ⟨rest.dropWhile (fun c => c ≠ '/')⟩⟩
    else .error ("invalid uri: " ++ s)
  | none => .error ("cannot parse uri: " ++ s)

/-- Replace every forward slash by a backslash; the source applies this
global replacement on the Windows path convention. -/
def backslashify (s : String) : String :=
  ⟨s.data.map (fun c => if c = '/' then '\\' else c)⟩

/-- Modelled from the spec: toSlashes from the path helpers, replacing every
backslash by a forward slash. -/
def toSlashes (s : String) : String :=
  ⟨s.data.map (fun c => if c = '\\' then '/' else c)⟩

/-- Modelled from the spec: drive letter normalization, upper-casing the
drive letter of a Windows style path. -/
def normalizeDriveLetter (s : String) : String :=
  match s.data with
  | c :: ':' :: rest => if c.isAlpha then ⟨c.toUpper :: ':' :: rest⟩ else s
  | _ => s

/-- Modelled from the spec: the native filesystem path of a file URI, in UNC
form when an authority is present, with a lowered drive letter, and with
backslashes on Windows. -/
def fsPathModel (isWin : Bool) (u : Uri) : String :=
  let value :=
    if u.authority ≠ "" ∧ 1 < u.path.length then ("//" ++ u.authority ++ u.path)
    else
      match u.path.data with
      | '/' :: c :: ':' :: rest => if c.isAlpha then (⟨c.toLower :: ':' :: rest⟩ : String) else u.path
      | _ => u.path
  if isWin then backslashify value else value

/-- Lower-case every character of a string. -/
def lowerStr (s : String) : String := ⟨s.data.map Char.toLower⟩

/-- Case insensitive string equality, used for authority comparison. -/
def eqIgnoreCase (a b : String) : Bool := lowerStr a == lowerStr b

/-- Split a character list on every occurrence of a separator character. -/
def listSplitOnChar (c : Char) : List Char → List (List Char)
  | [] => [[]]
  | x :: xs =>
    match listSplitOnChar c xs with
    | h :: t => if x = c then [] :: h :: t else (x :: h) :: t
    | [] => if x = c then [[], []] else [[x]]

/-- The nonempty slash separated segments of a path. -/
def segsOf (p : String) : List String :=
  ((listSplitOnChar '/' p.data).filter (fun l => l ≠ [])).map (fun l => (⟨l⟩ : String))

/-- Join segments into an absolute path with a leading slash. -/
def joinAbs (segs : List String) : String :=
  if segs.isEmpty then "/" else segs.foldl (fun acc s => acc ++ "/" ++ s) ""

/-- Join segments into a relative path without a leading slash. -/
def relJoin : List String → String
  | [] => ""
  | h :: t => t.foldl (fun acc s => acc ++ "/" ++ s) h

/-- Drop the common prefix of two segment lists, returning both remainders. -/
def dropCommonPrefix : List String → List String → List String × List String
  | a :: as, b :: bs => if a = b then dropCommonPrefix as bs else (a :: as, b :: bs)
  | as, bs => (as, bs)

/-- Resolve single and double dot segments. -/
def normalizeSegs (segs : List String) : List String :=
  segs.foldl
    (fun acc seg =>
      if seg = "." then acc
      else if seg = ".." then acc.dropLast
      else acc ++ [seg]) []

/-- The consumed extended URI utility, taken at its interface: the operations
the workspace module calls on it. -/
structure ExtUri where
  relativePath : Uri → Uri → Option String
  resolvePath : Uri → String → Uri
  dirname : Uri → Uri
  basenameOrAuthority : Uri → String
  getComparisonKey : Uri → String
  isEqualAuthority : String → String → Bool

/-- Modelled from the spec: relativePath of the extended URI utility.  It is
none when scheme or authority differ and the slash separated walk from the
base to the target otherwise; the walk is empty for equal locations. -/
def relativePathModel (base target : Uri) : Option String :=
  if base.scheme == target.scheme && eqIgnoreCase base.authority target.authority then
    let p := dropCommonPrefix (segsOf base.path) (segsOf target.path)
    some (relJoin (p.1.map (fun _ => "..") ++ p.2))
  else none

/-- Modelled from the spec: resolvePath of the extended URI utility.  An
absolute relative part replaces the path; otherwise it is appended to the
base path, and dot segments are resolved. -/
def resolvePathModel (base : Uri) (rel : String) : Uri :=
  match rel.data with
  | '/' :: _ => { base with path := joinAbs (normalizeSegs (segsOf rel)) }
  | _ => { base with path := joinAbs (normalizeSegs (segsOf base.path ++ segsOf rel)) }

/-- Modelled from the spec: dirname of the extended URI utility, dropping the
last path segment. -/
def dirnameModel (u : Uri) : Uri :=
  { u with path := joinAbs ((segsOf u.path).dropLast) }

/-- Modelled from the spec: basenameOrAuthority of the extended URI utility,
the last path segment, or the authority when the path has none. -/
def basenameOrAuthorityModel (u : Uri) : String :=
  match (segsOf u.path).getLast? with
  | some b => b
  | none => u.authority

/-- Modelled from the spec: getComparisonKey of the extended URI utility; the
model keys a location by its rendered string. -/
def getComparisonKeyModel (u : Uri) : String := uriToString u

/-- Modelled from the spec: the extended URI utility instance the surrounding
system supplies to the workspace module. -/
def stdExtUri : ExtUri :=
  ⟨relativePathModel, resolvePathModel, dirnameModel, basenameOrAuthorityModel,
   getComparisonKeyModel, eqIgnoreCase⟩

/-- The on-disk shape of one workspace folder: either a path with an optional
name, or a uri with an optional name (IStoredWorkspaceFolder). -/
inductive StoredWorkspaceFolder
  | pathForm (name : Option String) (path : String)
  | uriForm (name : Option String) (uri : String)
deriving DecidableEq

/-- The optional display name carried by a stored workspace folder. -/
def folderNameOf : StoredWorkspaceFolder → Option String
  | .pathForm n _ => n
  | .uriForm n _ => n

/-- The absolute native path stored for a file-scheme folder: the filesystem
path, with the drive letter normalized and slashes chosen on Windows (the
sequential reassignments of the absolute branch of the source). -/
def absoluteFilePath (isWin : Bool) (useSlashForPathFlag : Bool) (u : Uri) : String :=
  if isWin then
    if useSlashForPathFlag then toSlashes (normalizeDriveLetter (fsPathModel isWin u))
    else normalizeDriveLetter (fsPathModel isWin u)
  else fsPathModel isWin u

/-- getStoredWorkspaceFolder from the source: computes the stored form of a
workspace folder relative to the target config folder, as a relative path, an
absolute path, or a uri.  The ambient platform flag isWindows is an explicit
first parameter. -/
def getStoredWorkspaceFolder (isWin : Bool) (folderURI : Uri) (forceAbsolute : Bool)
    (folderName : Option String) (targetConfigFolderURI : Uri)
    (useSlashForPathFlag : Bool) (extUri : ExtUri) : StoredWorkspaceFolder :=
  if folderURI.scheme != targetConfigFolderURI.scheme then
    .uriForm folderName (uriToString folderURI)
  else
    match (if !forceAbsolute then extUri.relativePath targetConfigFolderURI folderURI else none) with
    | some fp =>
      if fp.length = 0 then
        .pathForm folderName (".")
      else if isWin && folderURI.scheme == "file" && !useSlashForPathFlag then
        .pathForm folderName (backslashify fp)
      else
        .pathForm folderName fp
    | none =>
      if folderURI.scheme == "file" then
        .pathForm folderName (absoluteFilePath isWin useSlashForPathFlag folderURI)
      else if !extUri.isEqualAuthority folderURI.authority targetConfigFolderURI.authority then
        .uriForm folderName (uriToString folderURI)
      else
        .pathForm folderName folderURI.path

/-- One resolved workspace folder: absolute location, display name and
zero-based position (the WorkspaceFolder data carried by the source). -/
structure WorkspaceFolder where
  uri : Uri
  name : String
  index : Nat
deriving DecidableEq

/-- The resolution step of toWorkspaceFolders from the source: a path form
with a nonempty path resolves against the config file directory; a uri form
parses and is forced to an absolute path, a malformed uri string being
caught and the folder skipped. -/
def resolveFolderUri (extUri : ExtUri) (relativeTo : Uri) : StoredWorkspaceFolder → Option Uri
  | .pathForm _ p => if p ≠ "" then some (extUri.resolvePath relativeTo p) else none
  | .uriForm _ s =>
    match uriParse s with
    | .ok u =>
      some (match u.path.data with
        | '/' :: _ => u
        | _ => { u with path := "/" ++ u.path })
    | .error _ => none

/-- The display name rule of toWorkspaceFolders from the source: the stored
name when it is a nonempty string, the basename or authority of the resolved
location otherwise. -/
def resolvedFolderName (extUri : ExtUri) (cf : StoredWorkspaceFolder) (u : Uri) : String :=
  match folderNameOf cf with
  | some s => if s = "" then extUri.basenameOrAuthority u else s
  | none => extUri.basenameOrAuthority u

/-- The loop of toWorkspaceFolders from the source, carrying the set of seen
comparison keys and the result list. -/
def toWorkspaceFoldersAux (extUri : ExtUri) (relativeTo : Uri) :
    List StoredWorkspaceFolder → List String → List WorkspaceFolder → List WorkspaceFolder
  | [], _, result => result
  | cf :: rest, seen, result =>
    match resolveFolderUri extUri relativeTo cf with
    | some uri =>
      let ck := extUri.getComparisonKey uri
      if seen.contains ck then toWorkspaceFoldersAux extUri relativeTo rest seen result
      else
        toWorkspaceFoldersAux extUri relativeTo rest (ck :: seen)
          (result ++ [⟨uri, resolvedFolderName extUri cf uri, result.length⟩])
    | none => toWorkspaceFoldersAux extUri relativeTo rest seen result

/-- toWorkspaceFolders from the source: resolves every stored folder against
the directory of the workspace config file, drops the ones that do not
resolve, removes duplicates by comparison key and numbers the rest. -/
def toWorkspaceFolders (extUri : ExtUri) (configuredFolders : List StoredWorkspaceFolder)
    (workspaceConfigFile : Uri) : List WorkspaceFolder :=
  toWorkspaceFoldersAux extUri (extUri.dirname workspaceConfigFile) configuredFolders [] []

/-- Follows the spec words: each stored folder paired with its resolved
absolute location, the ones that fail to resolve being dropped. -/
def resolvedPairs (extUri : ExtUri) (relativeTo : Uri) (cfs : List StoredWorkspaceFolder) :
    List (StoredWorkspaceFolder × Uri) :=
  cfs.filterMap (fun cf => (resolveFolderUri extUri relativeTo cf).map (fun u => (cf, u)))

/-- Follows the spec words: deduplicate by key keeping the first occurrence,
the accumulator holding the keys already seen. -/
def specDedupKeepFirst (key : α → String) (seen : List String) : List α → List α
  | [] => []
  | x :: xs =>
    if seen.contains (key x) then specDedupKeepFirst key seen xs
    else x :: specDedupKeepFirst key (key x :: seen) xs

/-- Turn deduplicated resolved pairs into workspace folders numbered from a
given start index. -/
def mkFolders (extUri : ExtUri) (start : Nat) :
    List (StoredWorkspaceFolder × Uri) → List WorkspaceFolder
  | [] => []
  | (cf, u) :: ps => ⟨u, resolvedFolderName extUri cf u, start⟩ :: mkFolders extUri (start + 1) ps

/-- A workspace identifier as carried by a recent workspace entry: stable id
and the location of the backing configuration file. -/
structure WorkspaceIdentifier where
  id : String
  configPath : Uri
deriving DecidableEq

/-- An in-memory entry of the workspaces part of the recently-opened list:
a recent workspace or a recent folder, each with an optional label and an
optional remote authority. -/
inductive RecentWsOrFolder
  | workspace (ws : WorkspaceIdentifier) (label : Option String) (remoteAuthority : Option String)
  | folder (folderUri : Uri) (label : Option String) (remoteAuthority : Option String)
deriving DecidableEq

/-- An in-memory recent file entry. -/
structure RecentFile where
  fileUri : Uri
  label : Option String
  remoteAuthority : Option String
deriving DecidableEq

/-- The in-memory recently-opened list (IRecentlyOpened). -/
structure RecentlyOpened where
  workspaces : List RecentWsOrFolder
  files : List RecentFile
deriving DecidableEq

/-- The value found under the workspace key of a serialized recent entry:
either an object carrying a string id and a string configPath, or a present
value of any other shape. -/
inductive WField
  | wobj (id : String) (configPath : String)
  | bad
deriving DecidableEq

/-- The value found under a string-typed key of serialized recency data:
either a string, or a present value that is not a string. -/
inductive SField
  | str (s : String)
  | bad
deriving DecidableEq

/-- One entry of the current {entries: ...} recency schema, as raw data:
each key may be absent, well shaped, or present with a wrong shape. -/
structure SerializedEntry where
  workspace : Option WField := none
  folderUri : Option SField := none
  fileUri : Option SField := none
  label : Option String := none
  remoteAuthority : Option String := none
deriving DecidableEq

/-- One element of the legacy workspaces3 array: an object with string id and
configURIPath, a raw location string, or data of any other shape. -/
inductive LegacyWsEntry
  | wobj (id : String) (configURIPath : String)
  | str (s : String)
  | bad
deriving DecidableEq

/-- The persisted recently-opened data: the current schema stores an entries
array; the legacy schema stores workspaces3, workspaceLabels, files2 and
fileLabels arrays.  An absent or non-array field is none. -/
structure StorageData where
  entries : Option (List SerializedEntry) := none
  workspaces3 : Option (List LegacyWsEntry) := none
  workspaceLabels : Option (List (Option String)) := none
  files2 : Option (List SField) := none
  fileLabels : Option (List (Option String)) := none
deriving DecidableEq

/-- The outcome of a restore: the recently-opened lists under construction
together with the warnings emitted for dropped entries. -/
structure RestoredRecents where
  workspaces : List RecentWsOrFolder
  files : List RecentFile
  warnings : List String
deriving DecidableEq

/-- The well shaped content of an optional workspace field, when present
(isSerializedRecentWorkspace from the source). -/
def wsValid : Option WField → Option (String × String)
  | some (.wobj i c) => some (i, c)
  | _ => none

/-- The string content of an optional string-typed field, when present
(isSerializedRecentFolder and isSerializedRecentFile from the source). -/
def strVal : Option SField → Option String
  | some (.str s) => some s
  | _ => none

/-- isSerializedRecentWorkspace from the source: the workspace key holds an
object with a string id and a string configPath. -/
def isSerializedRecentWorkspace (e : SerializedEntry) : Bool :=
  (wsValid e.workspace).isSome

/-- The body of the current-schema entry loop of restoreRecentlyOpened from
the source: discriminate the entry, parse its uri, and push the restored
entry; a parse failure is returned as the error of the step. -/
def restoreCurrentEntry (e : SerializedEntry) (acc : RestoredRecents) :
    Except String RestoredRecents :=
  match wsValid e.workspace with
  | some (id, configPath) =>
    (uriParse configPath).map (fun u =>
      { acc with workspaces := acc.workspaces ++ [.workspace ⟨id, u⟩ e.label e.remoteAuthority] })
  | none =>
    match strVal e.folderUri with
    | some s =>
      (uriParse s).map (fun u =>
        { acc with workspaces := acc.workspaces ++ [.folder u e.label e.remoteAuthority] })
    | none =>
      match strVal e.fileUri with
      | some s =>
        (uriParse s).map (fun u =>
          { acc with files := acc.files ++ [⟨u, e.label, e.remoteAuthority⟩] })
      | none => .ok acc

/-- The label of a legacy entry at a given index: the parallel label array
entry when it is a nonempty string, absent otherwise (out of range, null and
the empty string are all falsy). -/
def legacyLabel (labels : Option (List (Option String))) (i : Nat) : Option String :=
  match labels with
  | some ls =>
    match (ls.get? i).bind id with
    | some s => if s = "" then none else some s
    | none => none
  | none => none

/-- The body of the legacy workspaces3 loop of restoreRecentlyOpened from the
source: an object entry restores as a recent workspace, a string entry as a
recent folder, anything else is skipped; uri parse failures are errors. -/
def restoreLegacyWorkspace (labels : Option (List (Option String)))
    (w : LegacyWsEntry) (i : Nat) (acc : RestoredRecents) : Except String RestoredRecents :=
  let label := legacyLabel labels i
  match w with
  | .wobj id configURIPath =>
    (uriParse configURIPath).map (fun u =>
      { acc with workspaces := acc.workspaces ++ [.workspace ⟨id, u⟩ label none] })
  | .str s =>
    (uriParse s).map (fun u =>
      { acc with workspaces := acc.workspaces ++ [.folder u label none] })
  | .bad => .ok acc

/-- The body of the legacy files2 loop of restoreRecentlyOpened from the
source: a string entry restores as a recent file, anything else is skipped. -/
def restoreLegacyFile (labels : Option (List (Option String)))
    (f : SField) (i : Nat) (acc : RestoredRecents) : Except String RestoredRecents :=
  let label := legacyLabel labels i
  match f with
  | .str s =>
    (uriParse s).map (fun u => { acc with files := acc.files ++ [⟨u, label, none⟩] })
  | .bad => .ok acc

/-- The restoreGracefully loop of restoreRecentlyOpened from the source,
carrying the running index: a failing step is caught, a warning is recorded,
and the loop continues with the next entry. -/
def restoreGracefullyAux (f : α → Nat → RestoredRecents → Except String RestoredRecents)
    (i : Nat) : List α → RestoredRecents → RestoredRecents
  | [], acc => acc
  | e :: es, acc =>
    match f e i acc with
    | .ok a => restoreGracefullyAux f (i + 1) es a
    | .error m => restoreGracefullyAux f (i + 1) es { acc with warnings := acc.warnings ++ [m] }

/-- restoreGracefully from the source, started at index zero. -/
def restoreGracefully (es : List α)
    (f : α → Nat → RestoredRecents → Except String RestoredRecents)
    (acc : RestoredRecents) : RestoredRecents :=
  restoreGracefullyAux f 0 es acc

/-- restoreRecentlyOpened from the source: absent data restores to the empty
result; data with an entries array restores by the current schema; other data
restores by the legacy workspaces3 and files2 arrays. -/
def restoreRecentlyOpened (data : Option StorageData) : RestoredRecents :=
  let result : RestoredRecents := ⟨[], [], []⟩
  match data with
  | none => result
  | some d =>
    match d.entries with
    | some entries => restoreGracefully entries (fun e _ acc => restoreCurrentEntry e acc) result
    | none =>
      let r1 :=
        match d.workspaces3 with
        | some ws => restoreGracefully ws (restoreLegacyWorkspace d.workspaceLabels) result
        | none => result
      match d.files2 with
      | some fs => restoreGracefully fs (restoreLegacyFile d.fileLabels) r1
      | none => r1

/-- The serialization of one workspaces entry by toStoreData from the
source: an in-memory folder entry is told apart from a workspace entry by
which field it carries, here by its constructor. -/
def serializeRecentWs : RecentWsOrFolder → SerializedEntry
  | .folder u label ra =>
    { folderUri := some (.str (uriToString u)), label := label, remoteAuthority := ra }
  | .workspace ws label ra =>
    { workspace := some (.wobj ws.id (uriToString ws.configPath)),
      label := label, remoteAuthority := ra }

/-- The serialization of one recent file entry by toStoreData from the
source. -/
def serializeRecentFile (f : RecentFile) : SerializedEntry :=
  { fileUri := some (.str (uriToString f.fileUri)),
    label := f.label, remoteAuthority := f.remoteAuthority }

/-- toStoreData from the source: always emits the current schema, the
serialized workspaces entries followed by the serialized file entries. -/
def toStoreData (r : RecentlyOpened) : StorageData :=
  { entries := some (r.workspaces.map serializeRecentWs ++ r.files.map serializeRecentFile) }

/-- Follows the spec words: the independent contribution of one
current-schema entry to the workspaces list, or none. -/
def currentWsOf (e : SerializedEntry) : Option RecentWsOrFolder :=
  match wsValid e.workspace with
  | some (id, configPath) =>
    match uriParse configPath with
    | .ok u => some (.workspace ⟨id, u⟩ e.label e.remoteAuthority)
    | .error _ => none
  | none =>
    match strVal e.folderUri with
    | some s =>
      match uriParse s with
      | .ok u => some (.folder u e.label e.remoteAuthority)
      | .error _ => none
    | none => none

/-- Follows the spec words: the independent contribution of one
current-schema entry to the files list, or none. -/
def currentFileOf (e : SerializedEntry) : Option RecentFile :=
  match wsValid e.workspace with
  | some _ => none
  | none =>
    match strVal e.folderUri with
    | some _ => none
    | none =>
      match strVal e.fileUri with
      | some s =>
        match uriParse s with
        | .ok u => some ⟨u, e.label, e.remoteAuthority⟩
        | .error _ => none
      | none => none

/-- Follows the spec words: the warning one current-schema entry produces
when its uri fails to parse, or none. -/
def currentErrOf (e : SerializedEntry) : Option String :=
  match wsValid e.workspace with
  | some (_, configPath) =>
    match uriParse configPath with
    | .ok _ => none
    | .error m => some m
  | none =>
    match strVal e.folderUri with
    | some s =>
      match uriParse s with
      | .ok _ => none
      | .error m => some m
    | none =>
      match strVal e.fileUri with
      | some s =>
        match uriParse s with
        | .ok _ => none
        | .error m => some m
      | none => none

/-- Pair every list element with its index, starting at a given index. -/
def withIdx (n : Nat) : List α → List (Nat × α)
  | [] => []
  | x :: xs => (n, x) :: withIdx (n + 1) xs

/-- Follows the spec words: the independent contribution of one legacy
workspaces3 entry, or none. -/
def legacyWsOf (labels : Option (List (Option String))) (p : Nat × LegacyWsEntry) :
    Option RecentWsOrFolder :=
  match p.2 with
  | .wobj id configURIPath =>
    match uriParse configURIPath with
    | .ok u => some (.workspace ⟨id, u⟩ (legacyLabel labels p.1) none)
    | .error _ => none
  | .str s =>
    match uriParse s with
    | .ok u => some (.folder u (legacyLabel labels p.1) none)
    | .error _ => none
  | .bad => none

/-- Follows the spec words: the warning one legacy workspaces3 entry
produces, or none. -/
def legacyWsErrOf (p : Nat × LegacyWsEntry) : Option String :=
  match p.2 with
  | .wobj _ configURIPath =>
    match uriParse configURIPath with
    | .ok _ => none
    | .error m => some m
  | .str s =>
    match uriParse s with
    | .ok _ => none
    | .error m => some m
  | .bad => none

/-- Follows the spec words: the independent contribution of one legacy
files2 entry, or none. -/
def legacyFileOf (labels : Option (List (Option String))) (p : Nat × SField) :
    Option RecentFile :=
  match p.2 with
  | .str s =>
    match uriParse s with
    | .ok u => some ⟨u, legacyLabel labels p.1, none⟩
    | .error _ => none
  | .bad => none

/-- Follows the spec words: the warning one legacy files2 entry produces, or
none. -/
def legacyFileErrOf (p : Nat × SField) : Option String :=
  match p.2 with
  | .str s =>
    match uriParse s with
    | .ok _ => none
    | .error m => some m
  | .bad => none

/-- A uri value on which the modelled parse inverts the modelled print. -/
def uriRoundTrips (u : Uri) : Prop := uriParse (uriToString u) = .ok u

/-- Round-tripping of the uri carried by one in-memory workspaces entry. -/
def wsfRoundTrips : RecentWsOrFolder → Prop
  | .workspace ws _ _ => uriRoundTrips ws.configPath
  | .folder u _ _ => uriRoundTrips u

instance : DecidablePred uriRoundTrips := fun u => by
  unfold uriRoundTrips; infer_instance

instance : DecidablePred wsfRoundTrips := fun x => by
  cases x <;> (unfold wsfRoundTrips; infer_instance)

/-- One element of a folders array in a workspace configuration file, as raw
data: an object whose path, uri and name keys may each be absent, a string,
or a present value of another shape, or a non-object element carrying an
uninterpreted rendering. -/
inductive FolderElem
  | obj (path : Option SField) (uri : Option SField) (name : Option SField)
  | nonObj (tag : String)
deriving DecidableEq

/-- The name guard shared by the two folder shape checks from the source: the
name is absent or a string.  A present falsy non-string also passes in the
source; the model folds those into the string cases. -/
def folderElemNameOk : Option SField → Bool
  | none => true
  | some (.str _) => true
  | some .bad => false

/-- isRawFileWorkspaceFolder from the source: the element has a string path
and an acceptable name. -/
def isRawFileWorkspaceFolder : FolderElem → Bool
  | .obj (some (.str _)) _ name => folderElemNameOk name
  | _ => false

/-- isRawUriWorkspaceFolder from the source: the element has a string uri and
an acceptable name. -/
def isRawUriWorkspaceFolder : FolderElem → Bool
  | .obj _ (some (.str _)) name => folderElemNameOk name
  | _ => false

/-- isStoredWorkspaceFolder from the source: a valid path form or a valid
uri form. -/
def isStoredWorkspaceFolder (f : FolderElem) : Bool :=
  isRawFileWorkspaceFolder f || isRawUriWorkspaceFolder f

/-- The typed reading of a valid folders array element, discriminating the
path form before the uri form exactly as every consumer of the filtered
array does; an invalid element reads as none. -/
def toStoredFolder (f : FolderElem) : Option StoredWorkspaceFolder :=
  match f with
  | .obj path uri name =>
    if isRawFileWorkspaceFolder f then
      match path with
      | some (.str p) => some (.pathForm (strVal name) p)
      | _ => none
    else if isRawUriWorkspaceFolder f then
      match uri with
      | some (.str s) => some (.uriForm (strVal name) s)
      | _ => none
    else none
  | .nonObj _ => none

/-- A JSON value as far as the workspace codec inspects it: a string, a
folders array, or an uninterpreted rendering of anything else. -/
inductive JVal
  | str (s : String)
  | arr (xs : List FolderElem)
  | raw (tag : String)
deriving DecidableEq

/-- Modelled from the spec: the formatting parameters of the structural edit
utility, indent style and end of line. -/
structure FormattingOptions where
  insertSpaces : Bool
  tabSize : Nat
  eol : String
deriving DecidableEq

/-- One top level property of a workspace configuration document: its key,
the surrounding trivia (comments and formatting, preserved verbatim), its
value, and the formatting parameters applied by the last structural edit that
wrote it, if any. -/
structure JProp where
  key : String
  trivia : String
  value : JVal
  fmt : Option FormattingOptions
deriving DecidableEq

/-- A workspace configuration document as the fault tolerant structural
parser sees it: its top level properties in order plus trailing trivia. -/
structure RawDoc where
  props : List JProp
  trailing : String
deriving DecidableEq

/-- The property of a document with a given key, if present. -/
def findProp (doc : RawDoc) (k : String) : Option JProp :=
  doc.props.find? (fun p => p.key == k)

/-- The value of a document property with a given key, if present. -/
def lookupProp (doc : RawDoc) (k : String) : Option JVal :=
  (findProp doc k).map (fun p => p.value)

/-- The transient parsed form of a workspace configuration (StoredWorkspace):
the validated folders and whatever sits under the remoteAuthority key. -/
structure StoredWorkspace where
  folders : List StoredWorkspaceFolder
  remoteAuthority : Option JVal
deriving DecidableEq

/-- doParseStoredWorkspace from the source: a fault tolerant structural parse
that filters out folders array elements without a valid path or uri, and
fails when the document lacks an array valued folders property. -/
def doParseStoredWorkspace (path : Uri) (doc : RawDoc) : Except String StoredWorkspace :=
  match lookupProp doc ("folders") with
  | some (.arr xs) =>
    .ok { folders := xs.filterMap toStoredFolder,
          remoteAuthority := lookupProp doc ("remoteAuthority") }
  | _ => .error (uriToString path ++ " looks like an invalid workspace file.")

/-- useSlashForPath from the source: on Windows, forward slashes are used
exactly when some existing path form folder already contains one; elsewhere
always. -/
def useSlashForPath (isWin : Bool) (storedFolders : List StoredWorkspaceFolder) : Bool :=
  if isWin then
    storedFolders.any (fun f =>
      match f with
      | .pathForm _ p => p.data.contains '/'
      | .uriForm _ _ => false)
  else true

/-- Modelled from the spec: the minimal structural edit that replaces only
the value of one property, setProperty followed by applyEdits of the JSON
edit utility.  The trivia of every property is preserved; the edited property
records the formatting parameters it was written with; a missing property is
appended. -/
def jsonSetProperty (doc : RawDoc) (k : String) (v : JVal) (fmt : FormattingOptions) : RawDoc :=
  if doc.props.any (fun p => p.key == k) then
    { doc with props := doc.props.map (fun p =>
        if p.key == k then { p with value := v, fmt := some fmt } else p) }
  else
    { doc with props := doc.props ++ [⟨k, "", v, some fmt⟩] }

/-- Modelled from the spec: the minimal structural edit that removes one
property, removeProperty followed by applyEdits of the JSON edit utility. -/
def jsonRemoveProperty (doc : RawDoc) (k : String) : RawDoc :=
  { doc with props := doc.props.filter (fun p => p.key != k) }

/-- Modelled from the spec: getRemoteAuthority of the remote host helpers,
the authority of a remote scheme location and nothing otherwise. -/
def getRemoteAuthority (u : Uri) : Option String :=
  if u.scheme == "vscode-remote" then some u.authority else none

/-- Modelled from the spec: isEqualAuthority of the resource helpers applied
to the raw remoteAuthority property value and an optional authority: equal
when both are absent or both are strings equal ignoring case. -/
def isEqualAuthorityRaw : Option JVal → Option String → Bool
  | none, none => true
  | some (.str a), some b => eqIgnoreCase a b
  | _, _ => false

/-- Modelled from the spec: isAbsolute of the path helpers under the given
platform convention. -/
def isAbsoluteP (isWin : Bool) (p : String) : Bool :=
  if isWin then
    match p.data with
    | '/' :: _ => true
    | '\\' :: _ => true
    | c :: ':' :: s :: _ => c.isAlpha && (s = '/' || s = '\\')
    | _ => false
  else
    match p.data with
    | '/' :: _ => true
    | _ => false

/-- Serialization of a rewritten stored folder back into a folders array
element. -/
def encodeStoredFolder : StoredWorkspaceFolder → FolderElem
  | .pathForm name p => .obj (some (.str p)) none (name.map .str)
  | .uriForm name s => .obj none (some (.str s)) (name.map .str)

/-- The ambient platform flags the source reads as globals. -/
structure Platform where
  isWindows : Bool
  isMacintosh : Bool
  isLinux : Bool
deriving DecidableEq

/-- The body of the folder loop of rewriteWorkspaceFileForNewLocation from
the source: recompute the folder's absolute location from the old config
directory (a malformed uri form fails), decide the target absoluteness, and
re-encode against the new config directory. -/
def rewriteStoredFolder (plat : Platform) (extUri : ExtUri)
    (sourceConfigFolder targetConfigFolder : Uri) (slashForPath : Bool)
    (isFromUntitledWorkspace : Bool) (folder : StoredWorkspaceFolder) :
    Except String StoredWorkspaceFolder := do
  let folderURI ←
    match folder with
    | .pathForm _ p => pure (extUri.resolvePath sourceConfigFolder p)
    | .uriForm _ s => uriParse s
  let absolute :=
    if isFromUntitledWorkspace then false
    else
      match folder with
      | .pathForm _ p => isAbsoluteP plat.isWindows p
      | .uriForm _ _ => true
  pure (getStoredWorkspaceFolder plat.isWindows folderURI absolute (folderNameOf folder)
    targetConfigFolder slashForPath extUri)

/-- rewriteWorkspaceFileForNewLocation from the source: parse the document,
rewrite every folder, replace only the folders property by a minimal edit
with fixed formatting parameters, and drop a now redundant remoteAuthority
property. -/
def rewriteWorkspaceFileForNewLocation (plat : Platform) (extUri : ExtUri) (doc : RawDoc)
    (configPathURI : Uri) (isFromUntitledWorkspace : Bool) (targetConfigPathURI : Uri) :
    Except String RawDoc := do
  let storedWorkspace ← doParseStoredWorkspace configPathURI doc
  let sourceConfigFolder := extUri.dirname configPathURI
  let targetConfigFolder := extUri.dirname targetConfigPathURI
  let slashForPath := useSlashForPath plat.isWindows storedWorkspace.folders
  let rewrittenFolders ← storedWorkspace.folders.mapM
    (rewriteStoredFolder plat extUri sourceConfigFolder targetConfigFolder slashForPath
      isFromUntitledWorkspace)
  let formattingOptions : FormattingOptions :=
    ⟨false, 4, if plat.isLinux || plat.isMacintosh then "\n" else "\r\n"⟩
  let newContent :=
    jsonSetProperty doc ("folders") (.arr (rewrittenFolders.map encodeStoredFolder))
      formattingOptions
  let newContent :=
    if isEqualAuthorityRaw storedWorkspace.remoteAuthority (getRemoteAuthority targetConfigPathURI)
    then jsonRemoveProperty newContent ("remoteAuthority")
    else newContent
  pure newContent

example : uriParse ("file:///ws/src") = .ok ⟨"file", "", "/ws/src"⟩ := by decide
example : uriParse (uriToString ⟨"remote", "auth", ""⟩) = .ok ⟨"remote", "auth", ""⟩ := by decide
example : (uriParse ("bad")).isOk = false := by decide
example :
    getStoredWorkspaceFolder false ⟨"file", "", "/ws/src"⟩ false none ⟨"file", "", "/ws"⟩ true stdExtUri
      = .pathForm none ("src") := by decide
example :
    getStoredWorkspaceFolder false ⟨"file", "", "/ws"⟩ false none ⟨"file", "", "/ws"⟩ true stdExtUri
      = .pathForm none (".") := by decide
example :
    getStoredWorkspaceFolder true ⟨"file", "", "/ws/a/b"⟩ false none ⟨"file", "", "/ws"⟩ false stdExtUri
      = .pathForm none ("a\\b") := by decide
example :
    toWorkspaceFolders stdExtUri [.pathForm none ("src"), .pathForm none ("src")]
        ⟨"file", "", "/ws/w.code-workspace"⟩
      = [⟨⟨"file", "", "/ws/src"⟩, "src", 0⟩] := by decide
example :
    toWorkspaceFolders stdExtUri [.uriForm none ("remote://auth"), .pathForm (some ("n")) ("a")]
        ⟨"file", "", "/ws/w.code-workspace"⟩
      = [⟨⟨"remote", "auth", "/"⟩, "auth", 0⟩, ⟨⟨"file", "", "/ws/a"⟩, "n", 1⟩] := by decide

/-- A concrete workspace document whose folders array holds an invalid
element (a number) next to a valid path-form folder, plus an unrelated
settings property. -/
def invalidElemDoc : RawDoc :=
  ⟨[⟨"folders", "/*c*/", .arr [.nonObj ("5"), .obj (some (.str ("src"))) none none], none⟩,
    ⟨"settings", " ", .raw ("x"), none⟩], "\n"⟩

/-- A concrete workspace document with one relative folder, a comment around
the folders property and an unrelated settings property. -/
def formattingDoc : RawDoc :=
  ⟨[⟨"folders", "/*comment*/ ", .arr [.obj (some (.str ("src"))) none none], none⟩,
    ⟨"settings", " ", .raw ("{}"), none⟩], "\n"⟩

/-- The expected rewrite of formattingDoc between sibling save locations on
Linux: only the folders property changes, rewritten with the fixed Linux
formatting parameters. -/
def formattingDocOut : RawDoc :=
  ⟨[⟨"folders", "/*comment*/ ", .arr [.obj (some (.str ("src"))) none none],
     some ⟨false, 4, "\n"⟩⟩,
    ⟨"settings", " ", .raw ("{}"), none⟩], "\n"⟩

/-- A concrete recently-opened value with one workspace, one folder and one
file entry, each carrying a label. -/
def roundtripExample : RecentlyOpened :=
  ⟨[.workspace ⟨"w1", ⟨"file", "", "/a/w.code-workspace"⟩⟩ (some ("W")) (some ("auth")),
    .folder ⟨"file", "", "/b"⟩ (some ("F")) none],
   [⟨⟨"file", "", "/c.txt"⟩, some ("G"), none⟩]⟩

theorem string_eq_empty_of_data_eq_nil {s : String} (h : s.data = []) : s = "" := by
  cases s with
  | mk data => cases h; rfl

theorem string_ne_empty_iff_data {s : String} : s ≠ "" ↔ s.data ≠ [] := by
  constructor
  · intro h hd; exact h (string_eq_empty_of_data_eq_nil hd)
  · intro h he; subst he; exact h rfl

theorem string_ne_empty_of_length_ne_zero {s : String} (h : s.length ≠ 0) : s ≠ "" := by
  intro he; subst he; exact h rfl

theorem string_data_append (a b : String) : (a ++ b).data = a.data ++ b.data := rfl

theorem backslashify_ne_empty {s : String} (h : s ≠ "") : backslashify s ≠ "" := by
  rw [string_ne_empty_iff_data] at h ⊢
  simpa [backslashify] using h

theorem toSlashes_ne_empty {s : String} (h : s ≠ "") : toSlashes s ≠ "" := by
  rw [string_ne_empty_iff_data] at h ⊢
  simpa [toSlashes] using h

theorem normalizeDriveLetter_ne_empty {s : String} (h : s ≠ "") : normalizeDriveLetter s ≠ "" := by
  rw [string_ne_empty_iff_data] at h ⊢
  unfold normalizeDriveLetter
  split
  · split
    · simp
    · exact h
  · exact h

theorem fsPathModel_ne_empty (isWin : Bool) {u : Uri} (h : u.path ≠ "") :
    fsPathModel isWin u ≠ "" := by
  have hval : (if u.authority ≠ "" ∧ 1 < u.path.length then ("//" ++ u.authority ++ u.path)
      else
        match u.path.data with
        | '/' :: c :: ':' :: rest =>
          if c.isAlpha then (⟨c.toLower :: ':' :: rest⟩ : String) else u.path
        | _ => u.path) ≠ "" := by
    split
    · rw [string_ne_empty_iff_data]
      simp [string_data_append]
    · split
      · split
        · rw [string_ne_empty_iff_data]; simp
        · exact h
      · exact h
  simp only [fsPathModel]
  split
  · exact backslashify_ne_empty hval
  · exact hval

theorem dropCommonPrefix_self (l : List String) : dropCommonPrefix l l = ([], []) := by
  induction l with
  | nil => rfl
  | cons a as ih => simp [dropCommonPrefix, ih]

theorem relativePathModel_self (u : Uri) : relativePathModel u u = some "" := by
  simp [relativePathModel, eqIgnoreCase, dropCommonPrefix_self, relJoin]

/-- C2: when the folder URI's scheme differs from the target config folder's
scheme, getStoredWorkspaceFolder returns the absolute-uri form with the given
name and the skip-encoding rendering of the folder URI, regardless of
forceAbsolute and of every other argument. -/
theorem getStoredWorkspaceFolder_cross_scheme (isWin : Bool) (folderURI : Uri)
    (forceAbsolute : Bool) (folderName : Option String) (target : Uri)
    (useSlash : Bool) (extUri : ExtUri)
    (h : folderURI.scheme ≠ target.scheme) :
    getStoredWorkspaceFolder isWin folderURI forceAbsolute folderName target useSlash extUri
      = .uriForm folderName (uriToString folderURI) := by
  unfold getStoredWorkspaceFolder
  simp [h]

/-- Witness for the cross-scheme theorem at a concrete input. -/
theorem getStoredWorkspaceFolder_cross_scheme_witness :
    (Uri.mk ("vscode-remote") ("a") ("/x")).scheme ≠ (Uri.mk ("file") ("") ("/ws")).scheme ∧
    getStoredWorkspaceFolder false ⟨"vscode-remote", "a", "/x"⟩ true (some ("n"))
        ⟨"file", "", "/ws"⟩ true stdExtUri
      = .uriForm (some ("n")) ("vscode-remote://a/x") :=
  ⟨by decide,
   getStoredWorkspaceFolder_cross_scheme false ⟨"vscode-remote", "a", "/x"⟩ true (some ("n"))
     ⟨"file", "", "/ws"⟩ true stdExtUri (by decide)⟩

/-- C6 counterexample: an entry that carries the workspace key (with a value
of the wrong shape) together with a string folderUri is restored as a
RecentFolder, so an entry carrying the workspace key can be interpreted as a
later kind: discrimination is not by mere key presence. -/
theorem restore_presence_discrimination_counterexample :
    restoreRecentlyOpened (some { entries := some [⟨some .bad, some (.str ("file:///f")), none, none, none⟩] })
      = ⟨[.folder ⟨"file", "", "/f"⟩ none none], [], []⟩ := by decide

/-- C6 amended: current-schema entries are discriminated in fixed priority
order by passing the shape checks: a valid workspace object wins over any
folderUri and fileUri values, and a string folderUri wins over any fileUri
value whenever the workspace key is absent or ill shaped; an entry passing an
earlier check is never reinterpreted as a later kind. -/
theorem restoreCurrentEntry_priority_order :
    (∀ (id cp : String) (fu fi : Option SField) (l ra : Option String) (acc : RestoredRecents),
      restoreCurrentEntry ⟨some (.wobj id cp), fu, fi, l, ra⟩ acc
        = restoreCurrentEntry ⟨some (.wobj id cp), none, none, l, ra⟩ acc) ∧
    (∀ (s : String) (fi : Option SField) (l ra : Option String) (acc : RestoredRecents),
      restoreCurrentEntry ⟨none, some (.str s), fi, l, ra⟩ acc
        = restoreCurrentEntry ⟨none, some (.str s), none, l, ra⟩ acc) ∧
    (∀ (s : String) (fi : Option SField) (l ra : Option String) (acc : RestoredRecents),
      restoreCurrentEntry ⟨some .bad, some (.str s), fi, l, ra⟩ acc
        = restoreCurrentEntry ⟨some .bad, some (.str s), none, l, ra⟩ acc) := by
  refine ⟨?_, ?_, ?_⟩ <;> (intros; rfl)

/-- C8 counterexample: on Windows with forward slashes disabled, a folder of
a non-file scheme resolving to relative path a/b is stored as a/b unchanged;
the slash replacement does not happen for non-file schemes. -/
theorem getStoredWorkspaceFolder_backslash_counterexample :
    getStoredWorkspaceFolder true ⟨"vscode-remote", "a", "/ws/a/b"⟩ false none
        ⟨"vscode-remote", "a", "/ws"⟩ false stdExtUri = .pathForm none ("a/b")
    ∧ ("a/b" : String) ≠ "a\\b" := by decide

/-- C8 amended: on Windows with forward slashes disabled, for a file-scheme
folder whose nonempty relative path to the file-scheme target directory is p,
getStoredWorkspaceFolder stores p with every slash replaced by a backslash. -/
theorem getStoredWorkspaceFolder_windows_backslashes (u target : Uri)
    (name : Option String) (extUri : ExtUri) (p : String)
    (hu : u.scheme = "file") (ht : target.scheme = "file")
    (hrel : extUri.relativePath target u = some p) (hne : p ≠ "") :
    getStoredWorkspaceFolder true u false name target false extUri
      = .pathForm name (backslashify p) := by
  unfold getStoredWorkspaceFolder
  rw [hu, ht]
  simp only [bne_self_eq_false, Bool.false_eq_true, if_false, Bool.not_false, if_true, hrel]
  have hlen : ¬ p.length = 0 := by
    intro h0
    exact hne (string_eq_empty_of_data_eq_nil (List.length_eq_zero.mp h0))
  simp [hlen]

/-- Witness for the Windows backslash theorem at relative path a/b. -/
theorem getStoredWorkspaceFolder_windows_backslashes_witness :
    ((Uri.mk ("file") ("") ("/ws/a/b")).scheme = "file") ∧
    (stdExtUri.relativePath ⟨"file", "", "/ws"⟩ ⟨"file", "", "/ws/a/b"⟩ = some ("a/b")) ∧
    getStoredWorkspaceFolder true ⟨"file", "", "/ws/a/b"⟩ false none
        ⟨"file", "", "/ws"⟩ false stdExtUri = .pathForm none ("a\\b") :=
  ⟨by decide, by decide,
   getStoredWorkspaceFolder_windows_backslashes ⟨"file", "", "/ws/a/b"⟩ ⟨"file", "", "/ws"⟩
     none stdExtUri ("a/b") (by decide) (by decide) (by decide) (by decide)⟩

/-- C9 counterexample: a folder URI with an empty path component, same scheme
and authority as the target, resolved with forceAbsolute, is stored with an
empty-string path, so the path field of a path-form result can be empty. -/
theorem getStoredWorkspaceFolder_empty_path_counterexample :
    getStoredWorkspaceFolder false ⟨"vscode-remote", "a", ""⟩ true none
        ⟨"vscode-remote", "a", "/x"⟩ true stdExtUri = .pathForm none ("")
    ∧ ("" : String) ≠ "." := by decide

/-- C9 amended: resolving a folder URI equal to the target config folder
without forceAbsolute yields the stored path dot, and the path of any
path-form result is nonempty provided the folder URI's path component is
nonempty. -/
theorem getStoredWorkspaceFolder_dot_and_nonempty :
    (∀ (isWin useSlash : Bool) (u : Uri) (name : Option String),
      getStoredWorkspaceFolder isWin u false name u useSlash stdExtUri = .pathForm name (".")) ∧
    (∀ (isWin forceAbsolute useSlash : Bool) (u t : Uri) (name nm : Option String) (p : String),
      u.path ≠ "" →
      getStoredWorkspaceFolder isWin u forceAbsolute name t useSlash stdExtUri = .pathForm nm p →
      p ≠ "") := by
  constructor
  · intro isWin useSlash u name
    unfold getStoredWorkspaceFolder
    simp [stdExtUri, relativePathModel_self]
  · intro isWin forceAbsolute useSlash u t name nm p hpath heq
    unfold getStoredWorkspaceFolder at heq
    split at heq
    · exact absurd heq (by simp)
    · revert heq
      split
      next fp hfp =>
        intro heq
        have hfpne : ¬ fp.length = 0 → fp ≠ "" := by
          intro hlen he; subst he; exact hlen rfl
        split at heq
        · injection heq with h1 h2
          subst h2; decide
        next hlen =>
          split at heq
          · injection heq with h1 h2
            subst h2
            exact backslashify_ne_empty (hfpne hlen)
          · injection heq with h1 h2
            subst h2
            exact hfpne hlen
      next hfp =>
        intro heq
        split at heq
        · injection heq with h1 h2
          subst h2
          unfold absoluteFilePath
          split
          · split
            · exact toSlashes_ne_empty (normalizeDriveLetter_ne_empty (fsPathModel_ne_empty _ hpath))
            · exact normalizeDriveLetter_ne_empty (fsPathModel_ne_empty _ hpath)
          · exact fsPathModel_ne_empty _ hpath
        · split at heq
          · exact absurd heq (by simp)
          · injection heq with h1 h2
            subst h2
            exact hpath

/-- Witness for the dot and nonempty theorem at concrete inputs. -/
theorem getStoredWorkspaceFolder_dot_and_nonempty_witness :
    ((Uri.mk ("file") ("") ("/ws/a")).path ≠ "") ∧
    (getStoredWorkspaceFolder false ⟨"file", "", "/ws/a"⟩ false none
        ⟨"file", "", "/ws"⟩ true stdExtUri = .pathForm none ("a")) ∧
    (("a" : String) ≠ "") :=
  ⟨by decide, by decide,
   getStoredWorkspaceFolder_dot_and_nonempty.2 false false true ⟨"file", "", "/ws/a"⟩
     ⟨"file", "", "/ws"⟩ none none ("a") (by decide) (by decide)⟩

theorem currentErrOf_some_none {e : SerializedEntry} {m : String}
    (h : currentErrOf e = some m) : currentWsOf e = none ∧ currentFileOf e = none := by
  obtain ⟨w, fu, fi, l, ra⟩ := e
  rcases w with _ | (⟨id, cp⟩ | _) <;>
    rcases fu with _ | (s | _) <;>
      rcases fi with _ | (s2 | _) <;>
        simp_all [currentErrOf, currentWsOf, currentFileOf, wsValid, strVal] <;>
          (try cases hp : uriParse cp) <;>
          (try cases hp2 : uriParse s) <;>
          (try cases hp3 : uriParse s2) <;>
          simp_all

theorem restoreCurrentEntry_spec (e : SerializedEntry) (acc : RestoredRecents) :
    restoreCurrentEntry e acc =
      match currentErrOf e with
      | some m => .error m
      | none =>
        .ok ⟨acc.workspaces ++ (currentWsOf e).toList,
             acc.files ++ (currentFileOf e).toList, acc.warnings⟩ := by
  obtain ⟨w, fu, fi, l, ra⟩ := e
  obtain ⟨aw, af, awarn⟩ := acc
  rcases w with _ | (⟨id, cp⟩ | _) <;>
    rcases fu with _ | (s | _) <;>
      rcases fi with _ | (s2 | _) <;>
        simp_all [restoreCurrentEntry, currentErrOf, currentWsOf, currentFileOf,
          wsValid, strVal, Except.map] <;>
          (try cases hp : uriParse cp) <;>
          (try cases hp2 : uriParse s) <;>
          (try cases hp3 : uriParse s2) <;>
          simp_all [Except.map]

theorem restoreGracefullyAux_current (es : List SerializedEntry) :
    ∀ (i : Nat) (acc : RestoredRecents),
      restoreGracefullyAux (fun e _ a => restoreCurrentEntry e a) i es acc =
        ⟨acc.workspaces ++ es.filterMap currentWsOf,
         acc.files ++ es.filterMap currentFileOf,
         acc.warnings ++ es.filterMap currentErrOf⟩ := by
  induction es with
  | nil =>
    intro i acc
    obtain ⟨aw, af, awarn⟩ := acc
    simp [restoreGracefullyAux, List.filterMap]
  | cons e es ih =>
    intro i acc
    rw [restoreGracefullyAux, restoreCurrentEntry_spec]
    cases he : currentErrOf e with
    | some m =>
      obtain ⟨hws, hfi⟩ := currentErrOf_some_none he
      simp only [ih, List.filterMap_cons, he, hws, hfi]
      simp
    | none =>
      simp only [ih, List.filterMap_cons, he]
      cases hws : currentWsOf e <;> cases hfi : currentFileOf e <;> simp

theorem restoreLegacyWorkspace_spec (wl : Option (List (Option String)))
    (w : LegacyWsEntry) (i : Nat) (acc : RestoredRecents) :
    restoreLegacyWorkspace wl w i acc =
      match legacyWsErrOf (i, w) with
      | some m => .error m
      | none =>
        .ok ⟨acc.workspaces ++ (legacyWsOf wl (i, w)).toList, acc.files, acc.warnings⟩ := by
  obtain ⟨aw, af, awarn⟩ := acc
  rcases w with ⟨id, cp⟩ | s | _
  · simp_all [restoreLegacyWorkspace, legacyWsErrOf, legacyWsOf, Except.map]
    cases hp : uriParse cp <;> simp_all [Except.map]
  · simp_all [restoreLegacyWorkspace, legacyWsErrOf, legacyWsOf, Except.map]
    cases hp : uriParse s <;> simp_all [Except.map]
  · simp_all [restoreLegacyWorkspace, legacyWsErrOf, legacyWsOf]

theorem legacyWsErrOf_some_none {wl : Option (List (Option String))}
    {p : Nat × LegacyWsEntry} {m : String}
    (h : legacyWsErrOf p = some m) : legacyWsOf wl p = none := by
  obtain ⟨i, w⟩ := p
  rcases w with ⟨id, cp⟩ | s | _
  · simp_all [legacyWsErrOf, legacyWsOf]
    cases hp : uriParse cp <;> simp_all
  · simp_all [legacyWsErrOf, legacyWsOf]
    cases hp : uriParse s <;> simp_all
  · simp_all [legacyWsErrOf]

theorem restoreGracefullyAux_legacyWs (wl : Option (List (Option String)))
    (es : List LegacyWsEntry) :
    ∀ (i : Nat) (acc : RestoredRecents),
      restoreGracefullyAux (restoreLegacyWorkspace wl) i es acc =
        ⟨acc.workspaces ++ (withIdx i es).filterMap (legacyWsOf wl),
         acc.files,
         acc.warnings ++ (withIdx i es).filterMap legacyWsErrOf⟩ := by
  induction es with
  | nil =>
    intro i acc
    obtain ⟨aw, af, awarn⟩ := acc
    simp [restoreGracefullyAux, withIdx]
  | cons e es ih =>
    intro i acc
    rw [restoreGracefullyAux, restoreLegacyWorkspace_spec]
    cases he : legacyWsErrOf (i, e) with
    | some m =>
      have hws := @legacyWsErrOf_some_none wl _ _ he
      simp only [ih, withIdx, List.filterMap_cons, he, hws]
      simp
    | none =>
      simp only [ih, withIdx, List.filterMap_cons, he]
      cases hws : legacyWsOf wl (i, e) <;> simp

theorem restoreLegacyFile_spec (fl : Option (List (Option String)))
    (f : SField) (i : Nat) (acc : RestoredRecents) :
    restoreLegacyFile fl f i acc =
      match legacyFileErrOf (i, f) with
      | some m => .error m
      | none =>
        .ok ⟨acc.workspaces, acc.files ++ (legacyFileOf fl (i, f)).toList, acc.warnings⟩ := by
  obtain ⟨aw, af, awarn⟩ := acc
  rcases f with s | _
  · simp_all [restoreLegacyFile, legacyFileErrOf, legacyFileOf, Except.map]
    cases hp : uriParse s <;> simp_all [Except.map]
  · simp_all [restoreLegacyFile, legacyFileErrOf, legacyFileOf]

theorem legacyFileErrOf_some_none {fl : Option (List (Option String))}
    {p : Nat × SField} {m : String}
    (h : legacyFileErrOf p = some m) : legacyFileOf fl p = none := by
  obtain ⟨i, f⟩ := p
  rcases f with s | _
  · simp_all [legacyFileErrOf, legacyFileOf]
    cases hp : uriParse s <;> simp_all
  · simp_all [legacyFileErrOf]

theorem restoreGracefullyAux_legacyFile (fl : Option (List (Option String)))
    (es : List SField) :
    ∀ (i : Nat) (acc : RestoredRecents),
      restoreGracefullyAux (restoreLegacyFile fl) i es acc =
        ⟨acc.workspaces,
         acc.files ++ (withIdx i es).filterMap (legacyFileOf fl),
         acc.warnings ++ (withIdx i es).filterMap legacyFileErrOf⟩ := by
  induction es with
  | nil =>
    intro i acc
    obtain ⟨aw, af, awarn⟩ := acc
    simp [restoreGracefullyAux, withIdx]
  | cons e es ih =>
    intro i acc
    rw [restoreGracefullyAux, restoreLegacyFile_spec]
    cases he : legacyFileErrOf (i, e) with
    | some m =>
      have hws := @legacyFileErrOf_some_none fl _ _ he
      simp only [ih, withIdx, List.filterMap_cons, he, hws]
      simp
    | none =>
      simp only [ih, withIdx, List.filterMap_cons, he]
      cases hws : legacyFileOf fl (i, e) <;> simp

/-- C1: restoreRecentlyOpened processes every entry independently, in both
the current and the legacy schema: the restored workspaces, files and
warnings are each the filterMap of an entry-local function over the input
list, so a failing entry contributes exactly one warning and every other
entry is still restored; in particular, restoring three current-schema
entries whose second has a malformed configPath yields exactly the first and
third entries and one warning, without failing. -/
theorem restoreRecentlyOpened_per_entry_isolation :
    (∀ (es : List SerializedEntry) (w3 : Option (List LegacyWsEntry))
        (wl : Option (List (Option String))) (f2 : Option (List SField))
        (fl : Option (List (Option String))),
      restoreRecentlyOpened (some ⟨some es, w3, wl, f2, fl⟩) =
        ⟨es.filterMap currentWsOf, es.filterMap currentFileOf, es.filterMap currentErrOf⟩) ∧
    (∀ (w3 : Option (List LegacyWsEntry)) (wl : Option (List (Option String)))
        (f2 : Option (List SField)) (fl : Option (List (Option String))),
      restoreRecentlyOpened (some ⟨none, w3, wl, f2, fl⟩) =
        ⟨(withIdx 0 (w3.getD [])).filterMap (legacyWsOf wl),
         (withIdx 0 (f2.getD [])).filterMap (legacyFileOf fl),
         (withIdx 0 (w3.getD [])).filterMap legacyWsErrOf
           ++ (withIdx 0 (f2.getD [])).filterMap legacyFileErrOf⟩) ∧
    ((restoreRecentlyOpened (some { entries := some (
        [⟨some (.wobj ("1") ("file:///one.code-workspace")), none, none, none, none⟩,
         ⟨some (.wobj ("2") ("bad")), none, none, none, none⟩,
         ⟨none, some (.str ("file:///three")), none, none, none⟩]) })) =
      ⟨[.workspace ⟨"1", ⟨"file", "", "/one.code-workspace"⟩⟩ none none,
        .folder ⟨"file", "", "/three"⟩ none none], [],
       [("cannot parse uri: bad")]⟩) := by
  refine ⟨?_, ?_, by decide⟩
  · intro es w3 wl f2 fl
    show restoreGracefully es (fun e _ acc => restoreCurrentEntry e acc) ⟨[], [], []⟩ = _
    unfold restoreGracefully
    rw [restoreGracefullyAux_current]
    simp
  · intro w3 wl f2 fl
    cases w3 <;> cases f2 <;>
      simp [restoreRecentlyOpened, restoreGracefully, restoreGracefullyAux_legacyWs,
        restoreGracefullyAux_legacyFile, withIdx]

theorem filterMap_id_of_forall_some {l : List α} {g : α → Option α}
    (h : ∀ x ∈ l, g x = some x) : l.filterMap g = l := by
  induction l with
  | nil => rfl
  | cons a as ih =>
    simp only [List.filterMap_cons, h a (by simp)]
    rw [ih (fun x hx => h x (by simp [hx]))]

theorem filterMap_nil_of_forall_none {l : List α} {g : α → Option β}
    (h : ∀ x ∈ l, g x = none) : l.filterMap g = [] := by
  induction l with
  | nil => rfl
  | cons a as ih =>
    simp only [List.filterMap_cons, h a (by simp)]
    exact ih (fun x hx => h x (by simp [hx]))

theorem serializeRecentWs_projections (x : RecentWsOrFolder) (h : wsfRoundTrips x) :
    currentWsOf (serializeRecentWs x) = some x ∧
    currentFileOf (serializeRecentWs x) = none ∧
    currentErrOf (serializeRecentWs x) = none := by
  rcases x with ⟨⟨id, cp⟩, l, ra⟩ | ⟨u, l, ra⟩ <;>
    simp_all [serializeRecentWs, currentWsOf, currentFileOf, currentErrOf,
      wsValid, strVal, wsfRoundTrips, uriRoundTrips]

theorem serializeRecentFile_projections (f : RecentFile) (h : uriRoundTrips f.fileUri) :
    currentWsOf (serializeRecentFile f) = none ∧
    currentFileOf (serializeRecentFile f) = some f ∧
    currentErrOf (serializeRecentFile f) = none := by
  obtain ⟨u, l, ra⟩ := f
  simp_all [serializeRecentFile, currentWsOf, currentFileOf, currentErrOf,
    wsValid, strVal, uriRoundTrips]

/-- C4: for every recently-opened value whose uris are faithfully re-parsed
from their rendering, restoring the stored form gives back the very same
workspaces and files, in order, with labels and remote authorities, and with
no warnings; and toStoreData always emits the current entries schema with no
legacy fields. -/
theorem restore_toStoreData_roundtrip (r : RecentlyOpened)
    (hws : ∀ x ∈ r.workspaces, wsfRoundTrips x)
    (hfs : ∀ f ∈ r.files, uriRoundTrips f.fileUri) :
    restoreRecentlyOpened (some (toStoreData r)) = ⟨r.workspaces, r.files, []⟩ ∧
    ((toStoreData r).entries.isSome = true ∧ (toStoreData r).workspaces3 = none ∧
      (toStoreData r).workspaceLabels = none ∧ (toStoreData r).files2 = none ∧
      (toStoreData r).fileLabels = none) := by
  refine ⟨?_, by simp [toStoreData], by simp [toStoreData], by simp [toStoreData],
    by simp [toStoreData], by simp [toStoreData]⟩
  show restoreGracefully _ (fun e _ acc => restoreCurrentEntry e acc) ⟨[], [], []⟩ = _
  unfold restoreGracefully
  rw [restoreGracefullyAux_current]
  simp only [List.filterMap_append, List.filterMap_map, List.nil_append]
  have h1 : (r.workspaces.filterMap (currentWsOf ∘ serializeRecentWs)) = r.workspaces :=
    filterMap_id_of_forall_some (fun x hx => (serializeRecentWs_projections x (hws x hx)).1)
  have h2 : (r.files.filterMap (currentWsOf ∘ serializeRecentFile)) = [] :=
    filterMap_nil_of_forall_none (fun f hf => (serializeRecentFile_projections f (hfs f hf)).1)
  have h3 : (r.workspaces.filterMap (currentFileOf ∘ serializeRecentWs)) = [] :=
    filterMap_nil_of_forall_none (fun x hx => (serializeRecentWs_projections x (hws x hx)).2.1)
  have h4 : (r.files.filterMap (currentFileOf ∘ serializeRecentFile)) = r.files :=
    filterMap_id_of_forall_some (fun f hf => (serializeRecentFile_projections f (hfs f hf)).2.1)
  have h5 : (r.workspaces.filterMap (currentErrOf ∘ serializeRecentWs)) = [] :=
    filterMap_nil_of_forall_none (fun x hx => (serializeRecentWs_projections x (hws x hx)).2.2)
  have h6 : (r.files.filterMap (currentErrOf ∘ serializeRecentFile)) = [] :=
    filterMap_nil_of_forall_none (fun f hf => (serializeRecentFile_projections f (hfs f hf)).2.2)
  rw [h1, h2, h3, h4, h5, h6]
  simp

/-- Witness for the round-trip theorem at a value with one workspace, one
folder and one file entry, each with a label. -/
theorem restore_toStoreData_roundtrip_witness :
    (∀ x ∈ roundtripExample.workspaces, wsfRoundTrips x) ∧
    (∀ f ∈ roundtripExample.files, uriRoundTrips f.fileUri) ∧
    restoreRecentlyOpened (some (toStoreData roundtripExample))
      = ⟨roundtripExample.workspaces, roundtripExample.files, []⟩ :=
  ⟨by decide, by decide,
   (restore_toStoreData_roundtrip roundtripExample (by decide) (by decide)).1⟩

theorem toWorkspaceFoldersAux_spec (extUri : ExtUri) (rel : Uri)
    (cfs : List StoredWorkspaceFolder) :
    ∀ (seen : List String) (result : List WorkspaceFolder),
      toWorkspaceFoldersAux extUri rel cfs seen result =
        result ++ mkFolders extUri result.length
          (specDedupKeepFirst (fun p => extUri.getComparisonKey p.2) seen
            (resolvedPairs extUri rel cfs)) := by
  induction cfs with
  | nil =>
    intro seen result
    simp [toWorkspaceFoldersAux, resolvedPairs, specDedupKeepFirst, mkFolders]
  | cons cf rest ih =>
    intro seen result
    cases hres : resolveFolderUri extUri rel cf with
    | none =>
      simp only [toWorkspaceFoldersAux, hres]
      rw [ih]
      simp [resolvedPairs, List.filterMap_cons, hres]
    | some u =>
      simp only [toWorkspaceFoldersAux, hres]
      by_cases hseen : seen.contains (extUri.getComparisonKey u)
      · rw [if_pos hseen, ih]
        simp only [resolvedPairs, List.filterMap_cons, hres, Option.map_some]
        simp only [specDedupKeepFirst, hseen, if_pos]
      · rw [if_neg hseen, ih]
        simp only [resolvedPairs, List.filterMap_cons, hres, Option.map_some]
        simp only [specDedupKeepFirst, hseen, if_neg]
        simp only [mkFolders]
        simp [List.append_assoc]

theorem mkFolders_map_uri (extUri : ExtUri) (ps : List (StoredWorkspaceFolder × Uri)) :
    ∀ start, (mkFolders extUri start ps).map (fun f => f.uri) = ps.map Prod.snd := by
  induction ps with
  | nil => intro start; rfl
  | cons p ps ih =>
    intro start
    obtain ⟨cf, u⟩ := p
    simp only [mkFolders, List.map_cons, ih]

theorem mkFolders_index (extUri : ExtUri) (ps : List (StoredWorkspaceFolder × Uri)) :
    ∀ start i (h : i < (mkFolders extUri start ps).length),
      ((mkFolders extUri start ps).get ⟨i, h⟩).index = start + i := by
  induction ps with
  | nil => intro start i h; simp [mkFolders] at h
  | cons p ps ih =>
    intro start i h
    obtain ⟨cf, u⟩ := p
    cases i with
    | zero => simp [mkFolders]
    | succ j =>
      simp only [mkFolders] at h ⊢
      rw [List.get_cons_succ]
      rw [ih (start + 1) j]
      omega

theorem mkFolders_mem (extUri : ExtUri) (ps : List (StoredWorkspaceFolder × Uri)) :
    ∀ start f, f ∈ mkFolders extUri start ps →
      ∃ p ∈ ps, f.uri = p.2 ∧ f.name = resolvedFolderName extUri p.1 p.2 := by
  induction ps with
  | nil => intro start f hf; simp [mkFolders] at hf
  | cons p ps ih =>
    intro start f hf
    obtain ⟨cf, u⟩ := p
    simp only [mkFolders, List.mem_cons] at hf
    rcases hf with rfl | hf
    · exact ⟨(cf, u), by simp⟩
    · obtain ⟨q, hq, h1, h2⟩ := ih (start + 1) f hf
      exact ⟨q, List.mem_cons_of_mem _ hq, h1, h2⟩

theorem specDedupKeepFirst_subset (key : α → String) :
    ∀ (seen : List String) (xs : List α) (x : α),
      x ∈ specDedupKeepFirst key seen xs → x ∈ xs := by
  intro seen xs
  induction xs generalizing seen with
  | nil => intro x hx; simp [specDedupKeepFirst] at hx
  | cons a as ih =>
    intro x hx
    simp only [specDedupKeepFirst] at hx
    split at hx
    · exact List.mem_cons_of_mem _ (ih seen x hx)
    · rcases List.mem_cons.mp hx with rfl | hx2
      · exact List.mem_cons_self _ _
      · exact List.mem_cons_of_mem _ (ih _ x hx2)

theorem specDedupKeepFirst_not_seen (key : α → String) :
    ∀ (seen : List String) (xs : List α) (x : α),
      x ∈ specDedupKeepFirst key seen xs → seen.contains (key x) = false := by
  intro seen xs
  induction xs generalizing seen with
  | nil => intro x hx; simp [specDedupKeepFirst] at hx
  | cons a as ih =>
    intro x hx
    simp only [specDedupKeepFirst] at hx
    split at hx
    · exact ih seen x hx
    next hns =>
      rcases List.mem_cons.mp hx with rfl | hx2
      · simpa using hns
      · have := ih _ x hx2
        simp only [List.contains_cons, Bool.or_eq_false_iff] at this
        exact this.2

theorem specDedupKeepFirst_keys_nodup (key : α → String) :
    ∀ (seen : List String) (xs : List α),
      ((specDedupKeepFirst key seen xs).map key).Nodup := by
  intro seen xs
  induction xs generalizing seen with
  | nil => simp [specDedupKeepFirst]
  | cons a as ih =>
    simp only [specDedupKeepFirst]
    split
    · exact ih seen
    next hns =>
      simp only [List.map_cons, List.nodup_cons]
      refine ⟨?_, ih _⟩
      intro hmem
      obtain ⟨y, hy, hkey⟩ := List.mem_map.mp hmem
      have := specDedupKeepFirst_not_seen key _ _ y hy
      simp only [List.contains_cons, Bool.or_eq_false_iff] at this
      rw [hkey] at this
      simp at this

theorem mkFolders_index_get (extUri : ExtUri) (ps : List (StoredWorkspaceFolder × Uri)) :
    ∀ start i f, (mkFolders extUri start ps).get? i = some f → f.index = start + i := by
  induction ps with
  | nil => intro start i f h; simp [mkFolders] at h
  | cons p ps ih =>
    intro start i f h
    obtain ⟨cf, u⟩ := p
    cases i with
    | zero =>
      simp only [mkFolders, List.get?_cons_zero, Option.some.injEq] at h
      subst h; rfl
    | succ j =>
      simp only [mkFolders, List.get?_cons_succ] at h
      have := ih (start + 1) j f h
      omega

/-- C3: toWorkspaceFolders deduplicates the resolved folders by comparison
key keeping the first occurrence (the result's locations are exactly the
spec's keep-first dedup of the resolved pairs, and the comparison keys of
the result are pairwise distinct), assigns each folder an index equal to its
post-dedup position, and derives each name from the stored entry with the
basename-or-authority default; in particular two stored src folders relative
to /ws/w.code-workspace resolve to the single folder /ws/src at index 0. -/
theorem toWorkspaceFolders_dedup_index_name :
    (∀ (extUri : ExtUri) (cfs : List StoredWorkspaceFolder) (cfg : Uri),
      (toWorkspaceFolders extUri cfs cfg).map (fun f => f.uri)
        = (specDedupKeepFirst (fun p => extUri.getComparisonKey p.2) []
            (resolvedPairs extUri (extUri.dirname cfg) cfs)).map Prod.snd) ∧
    (∀ (extUri : ExtUri) (cfs : List StoredWorkspaceFolder) (cfg : Uri),
      ((toWorkspaceFolders extUri cfs cfg).map
        (fun f => extUri.getComparisonKey f.uri)).Nodup) ∧
    (∀ (extUri : ExtUri) (cfs : List StoredWorkspaceFolder) (cfg : Uri)
        (i : Nat) (f : WorkspaceFolder),
      (toWorkspaceFolders extUri cfs cfg).get? i = some f → f.index = i) ∧
    (∀ (extUri : ExtUri) (cfs : List StoredWorkspaceFolder) (cfg : Uri)
        (f : WorkspaceFolder), f ∈ toWorkspaceFolders extUri cfs cfg →
      ∃ cf ∈ cfs, resolveFolderUri extUri (extUri.dirname cfg) cf = some f.uri ∧
        f.name = resolvedFolderName extUri cf f.uri) ∧
    (toWorkspaceFolders stdExtUri [.pathForm none ("src"), .pathForm none ("src")]
        ⟨"file", "", "/ws/w.code-workspace"⟩
      = [⟨⟨"file", "", "/ws/src"⟩, "src", 0⟩]) := by
  have hbase : ∀ (extUri : ExtUri) (cfs : List StoredWorkspaceFolder) (cfg : Uri),
      toWorkspaceFolders extUri cfs cfg =
        mkFolders extUri 0
          (specDedupKeepFirst (fun (p : StoredWorkspaceFolder × Uri) =>
              extUri.getComparisonKey p.2) []
            (resolvedPairs extUri (extUri.dirname cfg) cfs)) := by
    intro extUri cfs cfg
    rw [toWorkspaceFolders, toWorkspaceFoldersAux_spec]
    rfl
  refine ⟨?_, ?_, ?_, ?_, by decide⟩
  · intro extUri cfs cfg
    rw [hbase, mkFolders_map_uri]
  · intro extUri cfs cfg
    have h1 : (toWorkspaceFolders extUri cfs cfg).map (fun f => extUri.getComparisonKey f.uri)
        = ((toWorkspaceFolders extUri cfs cfg).map (fun f => f.uri)).map
            (fun u => extUri.getComparisonKey u) := by
      rw [List.map_map]; rfl
    rw [h1, hbase, mkFolders_map_uri, List.map_map]
    exact specDedupKeepFirst_keys_nodup
      (fun (p : StoredWorkspaceFolder × Uri) => extUri.getComparisonKey p.2) [] _
  · intro extUri cfs cfg i f hget
    rw [hbase] at hget
    have := mkFolders_index_get extUri _ 0 i f hget
    omega
  · intro extUri cfs cfg f hf
    rw [hbase] at hf
    obtain ⟨p, hp, h1, h2⟩ := mkFolders_mem extUri _ 0 f hf
    have hpin := specDedupKeepFirst_subset _ _ _ _ hp
    obtain ⟨cf, hcf, hres⟩ := List.mem_filterMap.mp hpin
    cases hru : resolveFolderUri extUri (extUri.dirname cfg) cf with
    | none => rw [hru] at hres; simp at hres
    | some u =>
      rw [hru] at hres
      simp only [Option.map_some', Option.some.injEq] at hres
      subst hres
      refine ⟨cf, hcf, ?_, ?_⟩
      · rw [hru, h1]
      · rw [h2, h1]

/-- Witness for the dedup, index and name theorem at the concrete duplicate
input. -/
theorem toWorkspaceFolders_dedup_index_name_witness :
    ((toWorkspaceFolders stdExtUri [.pathForm none ("src"), .pathForm none ("src")]
        ⟨"file", "", "/ws/w.code-workspace"⟩).get? 0
      = some ⟨⟨"file", "", "/ws/src"⟩, "src", 0⟩) ∧
    ((⟨⟨"file", "", "/ws/src"⟩, "src", 0⟩ : WorkspaceFolder).index = 0) ∧
    ((⟨⟨"file", "", "/ws/src"⟩, "src", 0⟩ : WorkspaceFolder)
      ∈ toWorkspaceFolders stdExtUri [.pathForm none ("src"), .pathForm none ("src")]
          ⟨"file", "", "/ws/w.code-workspace"⟩) ∧
    (∃ cf ∈ ([.pathForm none ("src"), .pathForm none ("src")] : List StoredWorkspaceFolder),
      resolveFolderUri stdExtUri (stdExtUri.dirname ⟨"file", "", "/ws/w.code-workspace"⟩) cf
          = some (⟨⟨"file", "", "/ws/src"⟩, "src", 0⟩ : WorkspaceFolder).uri ∧
        (⟨⟨"file", "", "/ws/src"⟩, "src", 0⟩ : WorkspaceFolder).name
          = resolvedFolderName stdExtUri cf
              (⟨⟨"file", "", "/ws/src"⟩, "src", 0⟩ : WorkspaceFolder).uri) :=
  ⟨by decide,
   toWorkspaceFolders_dedup_index_name.2.2.1 stdExtUri
     [.pathForm none ("src"), .pathForm none ("src")] ⟨"file", "", "/ws/w.code-workspace"⟩
     0 ⟨⟨"file", "", "/ws/src"⟩, "src", 0⟩ (by decide),
   by decide,
   toWorkspaceFolders_dedup_index_name.2.2.2.1 stdExtUri
     [.pathForm none ("src"), .pathForm none ("src")] ⟨"file", "", "/ws/w.code-workspace"⟩
     ⟨⟨"file", "", "/ws/src"⟩, "src", 0⟩ (by decide)⟩

theorem except_bind_error {ε α β : Type} (m : ε) (f : α → Except ε β) :
    (Except.error m >>= f) = Except.error m := rfl

theorem except_bind_ok {ε α β : Type} (a : α) (f : α → Except ε β) :
    (Except.ok a >>= f) = f a := rfl

theorem find?_map_upd_other (k k2 : String) (v : JVal) (f : FormattingOptions)
    (hne : k2 ≠ k) :
    ∀ ps : List JProp,
      (ps.map (fun p => if p.key == k then { p with value := v, fmt := some f } else p)).find?
          (fun p => p.key == k2)
        = ps.find? (fun p => p.key == k2) := by
  intro ps
  induction ps with
  | nil => rfl
  | cons p ps ih =>
    by_cases hk : p.key = k
    · have hk2 : (p.key == k2) = false := by simp [hk, Ne.symm hne]
      simp only [List.map_cons, if_pos (by simp [hk] : (p.key == k) = true)]
      rw [List.find?_cons_of_neg, List.find?_cons_of_neg _ (by simp [hk2])]
      · exact ih
      · simpa [hk] using hk2
    · simp only [List.map_cons, if_neg (by simp [hk] : ¬ (p.key == k) = true)]
      by_cases hk2 : p.key = k2
      · rw [List.find?_cons_of_pos _ (by simp [hk2]), List.find?_cons_of_pos _ (by simp [hk2])]
      · rw [List.find?_cons_of_neg _ (by simp [hk2]), List.find?_cons_of_neg _ (by simp [hk2])]
        exact ih

theorem findProp_set_other (doc : RawDoc) (k k2 : String) (v : JVal) (f : FormattingOptions)
    (hne : k2 ≠ k) :
    findProp (jsonSetProperty doc k v f) k2 = findProp doc k2 := by
  unfold jsonSetProperty findProp
  split
  · exact find?_map_upd_other k k2 v f hne doc.props
  · show (doc.props ++ [(⟨k, "", v, some f⟩ : JProp)]).find? (fun p => p.key == k2) = _
    induction doc.props with
    | nil =>
      simp only [List.nil_append, List.find?_nil]
      rw [List.find?_cons_of_neg _ (by simp [Ne.symm hne]), List.find?_nil]
    | cons p ps ih =>
      by_cases hk2 : p.key = k2
      · rw [List.cons_append, List.find?_cons_of_pos _ (by simp [hk2]),
          List.find?_cons_of_pos _ (by simp [hk2])]
      · rw [List.cons_append, List.find?_cons_of_neg _ (by simp [hk2]),
          List.find?_cons_of_neg _ (by simp [hk2])]
        exact ih

theorem find?_map_upd_self (k : String) (v : JVal) (f : FormattingOptions) :
    ∀ (ps : List JProp) (q : JProp), ps.find? (fun p => p.key == k) = some q →
      (ps.map (fun p => if p.key == k then { p with value := v, fmt := some f } else p)).find?
          (fun p => p.key == k)
        = some ⟨q.key, q.trivia, v, some f⟩ := by
  intro ps
  induction ps with
  | nil => intro q hq; simp at hq
  | cons p ps ih =>
    intro q hq
    by_cases hk : p.key = k
    · rw [List.find?_cons_of_pos _ (by simp [hk])] at hq
      cases hq
      simp only [List.map_cons, if_pos (by simp [hk] : (p.key == k) = true)]
      rw [List.find?_cons_of_pos _ (by simp [hk])]
    · rw [List.find?_cons_of_neg _ (by simp [hk])] at hq
      simp only [List.map_cons, if_neg (by simp [hk] : ¬ (p.key == k) = true)]
      rw [List.find?_cons_of_neg _ (by simp [hk])]
      exact ih q hq

theorem findProp_set_self (doc : RawDoc) (k : String) (v : JVal) (f : FormattingOptions)
    (q : JProp) (hq : findProp doc k = some q) :
    findProp (jsonSetProperty doc k v f) k = some ⟨q.key, q.trivia, v, some f⟩ := by
  have hany : doc.props.any (fun p => p.key == k) = true := by
    refine List.any_eq_true.mpr ⟨q, List.mem_of_find?_eq_some hq, ?_⟩
    have := List.find?_some hq
    simpa using this
  unfold jsonSetProperty findProp
  rw [if_pos hany]
  exact find?_map_upd_self k v f doc.props q hq

theorem findProp_remove_other (doc : RawDoc) (k k2 : String) (hne : k2 ≠ k) :
    findProp (jsonRemoveProperty doc k) k2 = findProp doc k2 := by
  unfold jsonRemoveProperty findProp
  show (doc.props.filter (fun p => p.key != k)).find? (fun p => p.key == k2) = _
  induction doc.props with
  | nil => rfl
  | cons p ps ih =>
    by_cases hk2 : p.key = k2
    · rw [List.filter_cons_of_pos (by simp [hk2, hne]),
        List.find?_cons_of_pos _ (by simp [hk2]), List.find?_cons_of_pos _ (by simp [hk2])]
    · by_cases hk : p.key = k
      · rw [List.filter_cons_of_neg (by simp [hk]), List.find?_cons_of_neg _ (by simp [hk2])]
        exact ih
      · rw [List.filter_cons_of_pos (by simp [hk]), List.find?_cons_of_neg _ (by simp [hk2]),
          List.find?_cons_of_neg _ (by simp [hk2])]
        exact ih

theorem jsonSetProperty_trailing (doc : RawDoc) (k : String) (v : JVal) (f : FormattingOptions) :
    (jsonSetProperty doc k v f).trailing = doc.trailing := by
  unfold jsonSetProperty
  split <;> rfl

theorem jsonRemoveProperty_trailing (doc : RawDoc) (k : String) :
    (jsonRemoveProperty doc k).trailing = doc.trailing := rfl

theorem any_key_map_upd (k : String) (v : JVal) (f : FormattingOptions) :
    ∀ ps : List JProp,
      (ps.map (fun p => if p.key == k then { p with value := v, fmt := some f } else p)).any
          (fun p => p.key == k)
        = ps.any (fun p => p.key == k) := by
  intro ps
  induction ps with
  | nil => rfl
  | cons p ps ih =>
    by_cases hk : p.key = k <;>
      simp_all [List.any_cons]

theorem map_upd_id_of_no_key (k : String) (v : JVal) (f : FormattingOptions) :
    ∀ ps : List JProp, ps.any (fun p => p.key == k) = false →
      ps.map (fun p => if p.key == k then { p with value := v, fmt := some f } else p) = ps := by
  intro ps
  induction ps with
  | nil => intro h; rfl
  | cons p ps ih =>
    intro h
    simp only [List.any_cons, Bool.or_eq_false_iff] at h
    simp only [List.map_cons, if_neg (by simp [h.1] : ¬ (p.key == k) = true)]
    rw [ih h.2]

theorem map_upd_upd (k : String) (v1 v2 : JVal) (f1 f2 : FormattingOptions) :
    ∀ ps : List JProp,
      ((ps.map (fun p => if p.key == k then { p with value := v1, fmt := some f1 } else p)).map
          (fun p => if p.key == k then { p with value := v2, fmt := some f2 } else p))
        = ps.map (fun p => if p.key == k then { p with value := v2, fmt := some f2 } else p) := by
  intro ps
  induction ps with
  | nil => rfl
  | cons p ps ih =>
    by_cases hk : p.key = k <;>
      simp_all [List.map_cons]

theorem jsonSetProperty_set_set (doc : RawDoc) (k : String) (v1 v2 : JVal)
    (f1 f2 : FormattingOptions) :
    jsonSetProperty (jsonSetProperty doc k v1 f1) k v2 f2 = jsonSetProperty doc k v2 f2 := by
  unfold jsonSetProperty
  by_cases hany : doc.props.any (fun p => p.key == k) = true
  · rw [if_pos hany]
    simp only [any_key_map_upd, hany, if_pos]
    rw [map_upd_upd]
  · rw [if_neg hany]
    have hany2 : ((doc.props ++ [(⟨k, "", v1, some f1⟩ : JProp)]).any (fun p => p.key == k)) = true := by
      simp [List.any_append]
    simp only [hany2, if_pos, if_neg hany]
    have hfalse : doc.props.any (fun p => p.key == k) = false := by
      simpa using hany
    rw [List.map_append, map_upd_id_of_no_key k v2 f2 doc.props hfalse]
    simp

/-- C7: doParseStoredWorkspace succeeds exactly when the document has an
array valued folders property (so it fails with a parse error exactly when
that is missing), and such a failure makes the whole
rewriteWorkspaceFileForNewLocation call return the same error before any
edit is computed, so no partial output is ever produced. -/
theorem doParseStoredWorkspace_failure_iff_and_aborts :
    (∀ (path : Uri) (doc : RawDoc),
      (∃ xs, lookupProp doc ("folders") = some (.arr xs)) ↔
        ∃ sw, doParseStoredWorkspace path doc = .ok sw) ∧
    (∀ (plat : Platform) (extUri : ExtUri) (doc : RawDoc) (path : Uri)
        (unt : Bool) (target : Uri) (m : String),
      doParseStoredWorkspace path doc = .error m →
      rewriteWorkspaceFileForNewLocation plat extUri doc path unt target = .error m) := by
  constructor
  · intro path doc
    constructor
    · rintro ⟨xs, hxs⟩
      refine ⟨{ folders := xs.filterMap toStoredFolder,
                remoteAuthority := lookupProp doc ("remoteAuthority") }, ?_⟩
      rw [doParseStoredWorkspace, hxs]
    · rintro ⟨sw, hsw⟩
      rw [doParseStoredWorkspace] at hsw
      cases hl : lookupProp doc ("folders") with
      | none => rw [hl] at hsw; simp at hsw
      | some v =>
        cases v with
        | str s => rw [hl] at hsw; simp at hsw
        | arr xs => exact ⟨xs, rfl⟩
        | raw t => rw [hl] at hsw; simp at hsw
  · intro plat extUri doc path unt target m hm
    unfold rewriteWorkspaceFileForNewLocation
    rw [hm]
    rfl

/-- Witness for the parse failure theorem at a document with no folders
property and at one with an array folders property. -/
theorem doParseStoredWorkspace_failure_iff_and_aborts_witness :
    (∃ xs, lookupProp ⟨[⟨"folders", "", .arr [], none⟩], ""⟩ ("folders") = some (.arr xs)) ∧
    (∃ sw, doParseStoredWorkspace ⟨"file", "", "/w"⟩ ⟨[⟨"folders", "", .arr [], none⟩], ""⟩
      = .ok sw) ∧
    (doParseStoredWorkspace ⟨"file", "", "/w"⟩ ⟨[], "x"⟩
      = .error ("file:///w looks like an invalid workspace file.")) ∧
    (rewriteWorkspaceFileForNewLocation ⟨false, false, true⟩ stdExtUri ⟨[], "x"⟩
        ⟨"file", "", "/w"⟩ false ⟨"file", "", "/w2"⟩
      = .error ("file:///w looks like an invalid workspace file.")) :=
  ⟨⟨[], by decide⟩,
   (doParseStoredWorkspace_failure_iff_and_aborts.1 ⟨"file", "", "/w"⟩
     ⟨[⟨"folders", "", .arr [], none⟩], ""⟩).mp ⟨[], by decide⟩,
   by decide,
   doParseStoredWorkspace_failure_iff_and_aborts.2 ⟨false, false, true⟩ stdExtUri ⟨[], "x"⟩
     ⟨"file", "", "/w"⟩ false ⟨"file", "", "/w2"⟩
     ("file:///w looks like an invalid workspace file.") (by decide)⟩

theorem toStoredFolder_none_of_invalid {x : FolderElem}
    (h : isStoredWorkspaceFolder x = false) : toStoredFolder x = none := by
  unfold isStoredWorkspaceFolder at h
  simp only [Bool.or_eq_false_iff] at h
  unfold toStoredFolder
  cases x with
  | obj p u n => simp [h.1, h.2]
  | nonObj t => rfl

theorem lookupProp_to_findProp {doc : RawDoc} {k : String} {v : JVal}
    (h : lookupProp doc k = some v) : ∃ q, findProp doc k = some q ∧ q.value = v := by
  unfold lookupProp at h
  cases hf : findProp doc k with
  | none => rw [hf] at h; simp at h
  | some q =>
    rw [hf] at h
    simp only [Option.map_some', Option.some.injEq] at h
    exact ⟨q, rfl, h⟩


/-- C10: a folders array element that is neither a valid path form nor a
valid uri form is silently filtered out by the parse step: parsing and
rewriting a document are unchanged when the invalid element is removed from
the folders array, and on a concrete document with a numeric element the
rewrite succeeds with that element absent from the output's folders. -/
theorem invalid_folder_element_filtered :
    (∀ (path : Uri) (doc : RawDoc) (pre post : List FolderElem) (x : FolderElem)
        (fmt0 : FormattingOptions),
      lookupProp doc ("folders") = some (.arr (pre ++ x :: post)) →
      isStoredWorkspaceFolder x = false →
      doParseStoredWorkspace path doc
        = doParseStoredWorkspace path
            (jsonSetProperty doc ("folders") (.arr (pre ++ post)) fmt0)) ∧
    (∀ (plat : Platform) (extUri : ExtUri) (path : Uri) (doc : RawDoc)
        (pre post : List FolderElem) (x : FolderElem) (fmt0 : FormattingOptions)
        (unt : Bool) (target : Uri),
      lookupProp doc ("folders") = some (.arr (pre ++ x :: post)) →
      isStoredWorkspaceFolder x = false →
      rewriteWorkspaceFileForNewLocation plat extUri doc path unt target
        = rewriteWorkspaceFileForNewLocation plat extUri
            (jsonSetProperty doc ("folders") (.arr (pre ++ post)) fmt0) path unt target) ∧
    (rewriteWorkspaceFileForNewLocation ⟨false, false, true⟩ stdExtUri invalidElemDoc
        ⟨"file", "", "/ws/a.code-workspace"⟩ false ⟨"file", "", "/ws/b.code-workspace"⟩
      = .ok ⟨[⟨"folders", "/*c*/", .arr [.obj (some (.str ("src"))) none none],
              some ⟨false, 4, "\n"⟩⟩,
             ⟨"settings", " ", .raw ("x"), none⟩], "\n"⟩) := by
  have hparse : ∀ (path : Uri) (doc : RawDoc) (pre post : List FolderElem) (x : FolderElem)
      (fmt0 : FormattingOptions),
      lookupProp doc ("folders") = some (.arr (pre ++ x :: post)) →
      isStoredWorkspaceFolder x = false →
      doParseStoredWorkspace path doc
        = doParseStoredWorkspace path
            (jsonSetProperty doc ("folders") (.arr (pre ++ post)) fmt0) := by
    intro path doc pre post x fmt0 hl hx
    obtain ⟨q, hq, hqv⟩ := lookupProp_to_findProp hl
    have hset := findProp_set_self doc ("folders") (.arr (pre ++ post)) fmt0 q hq
    have hl2 : lookupProp (jsonSetProperty doc ("folders") (.arr (pre ++ post)) fmt0) ("folders")
        = some (.arr (pre ++ post)) := by
      unfold lookupProp
      rw [hset]
      rfl
    have hra : lookupProp (jsonSetProperty doc ("folders") (.arr (pre ++ post)) fmt0)
        ("remoteAuthority") = lookupProp doc ("remoteAuthority") := by
      unfold lookupProp
      rw [findProp_set_other doc ("folders") ("remoteAuthority") _ _ (by decide)]
    have hfm : (pre ++ x :: post).filterMap toStoredFolder
        = (pre ++ post).filterMap toStoredFolder := by
      rw [List.filterMap_append, List.filterMap_append, List.filterMap_cons,
        toStoredFolder_none_of_invalid hx]
    rw [doParseStoredWorkspace, doParseStoredWorkspace, hl, hl2, hra]
    simp [hfm]
  refine ⟨hparse, ?_, by decide⟩
  intro plat extUri path doc pre post x fmt0 unt target hl hx
  have hpe := hparse path doc pre post x fmt0 hl hx
  unfold rewriteWorkspaceFileForNewLocation
  rw [← hpe]
  cases hsw : doParseStoredWorkspace path doc with
  | error m => rw [except_bind_error, except_bind_error]
  | ok sw =>
    rw [except_bind_ok, except_bind_ok]
    simp only []
    congr 1
    funext rws
    rw [jsonSetProperty_set_set]

/-- Witness for the invalid element filtering theorem. -/
theorem invalid_folder_element_filtered_witness :
    (lookupProp invalidElemDoc ("folders")
      = some (.arr ([] ++ FolderElem.nonObj ("5") :: [.obj (some (.str ("src"))) none none]))) ∧
    (isStoredWorkspaceFolder (.nonObj ("5")) = false) ∧
    (doParseStoredWorkspace ⟨"file", "", "/w"⟩ invalidElemDoc
      = doParseStoredWorkspace ⟨"file", "", "/w"⟩
          (jsonSetProperty invalidElemDoc ("folders")
            (.arr ([] ++ [.obj (some (.str ("src"))) none none])) ⟨true, 2, "\n"⟩)) :=
  ⟨by decide, by decide,
   invalid_folder_element_filtered.1 ⟨"file", "", "/w"⟩ invalidElemDoc []
     [.obj (some (.str ("src"))) none none] (.nonObj ("5")) ⟨true, 2, "\n"⟩
     (by decide) (by decide)⟩


/-- C5 counterexample: with every caller supplied argument fixed, the
formatting parameters recorded on the rewritten folders property differ
between the Linux and the Windows platform (eol lf versus crlf), and the two
outputs differ, so the formatting parameters of the edit are not supplied by
the caller but fixed inside the function from the platform. -/
theorem rewrite_formatting_platform_counterexample :
    ((rewriteWorkspaceFileForNewLocation ⟨false, false, true⟩ stdExtUri formattingDoc
        ⟨"file", "", "/ws/a.code-workspace"⟩ false ⟨"file", "", "/ws/b.code-workspace"⟩).map
      (fun d => (findProp d ("folders")).map (fun p => p.fmt)))
      = .ok (some (some ⟨false, 4, "\n"⟩)) ∧
    ((rewriteWorkspaceFileForNewLocation ⟨true, false, false⟩ stdExtUri formattingDoc
        ⟨"file", "", "/ws/a.code-workspace"⟩ false ⟨"file", "", "/ws/b.code-workspace"⟩).map
      (fun d => (findProp d ("folders")).map (fun p => p.fmt)))
      = .ok (some (some ⟨false, 4, "\r\n"⟩)) ∧
    rewriteWorkspaceFileForNewLocation ⟨false, false, true⟩ stdExtUri formattingDoc
        ⟨"file", "", "/ws/a.code-workspace"⟩ false ⟨"file", "", "/ws/b.code-workspace"⟩
      ≠ rewriteWorkspaceFileForNewLocation ⟨true, false, false⟩ stdExtUri formattingDoc
        ⟨"file", "", "/ws/a.code-workspace"⟩ false ⟨"file", "", "/ws/b.code-workspace"⟩ :=
  ⟨by decide, by decide, by decide⟩

theorem doParse_ok_findProp {path : Uri} {doc : RawDoc} {sw : StoredWorkspace}
    (h : doParseStoredWorkspace path doc = .ok sw) :
    ∃ q, findProp doc ("folders") = some q := by
  unfold doParseStoredWorkspace at h
  cases hl : lookupProp doc ("folders") with
  | none => rw [hl] at h; simp at h
  | some v =>
    obtain ⟨q, hq, hv⟩ := lookupProp_to_findProp hl
    exact ⟨q, hq⟩

/-- C5 amended: a successful rewriteWorkspaceFileForNewLocation applies a
minimal structural edit: every property other than folders and
remoteAuthority is preserved exactly, the trailing trivia is preserved, the
folders property keeps its surrounding trivia, and the formatting parameters
of the edit are the ones fixed inside the function (tabs, tab size 4, eol
chosen from the platform), not supplied by the caller. -/
theorem rewrite_minimal_edit_frame (plat : Platform) (extUri : ExtUri) (doc : RawDoc)
    (cp : Uri) (unt : Bool) (tgt : Uri) (out : RawDoc)
    (h : rewriteWorkspaceFileForNewLocation plat extUri doc cp unt tgt = .ok out) :
    (∀ k, k ≠ "folders" → k ≠ "remoteAuthority" → findProp out k = findProp doc k) ∧
    out.trailing = doc.trailing ∧
    (∃ q p, findProp doc ("folders") = some q ∧ findProp out ("folders") = some p ∧
      p.trivia = q.trivia ∧
      p.fmt = some ⟨false, 4, if plat.isLinux || plat.isMacintosh then "\n" else "\r\n"⟩) := by
  unfold rewriteWorkspaceFileForNewLocation at h
  cases hsw : doParseStoredWorkspace cp doc with
  | error m => rw [hsw, except_bind_error] at h; cases h
  | ok sw =>
    rw [hsw, except_bind_ok] at h
    simp only [] at h
    cases hmm : sw.folders.mapM (rewriteStoredFolder plat extUri (extUri.dirname cp)
        (extUri.dirname tgt) (useSlashForPath plat.isWindows sw.folders) unt) with
    | error m => rw [hmm, except_bind_error] at h; cases h
    | ok rws =>
      rw [hmm, except_bind_ok] at h
      simp only [pure, Except.pure, Except.ok.injEq] at h
      subst h
      obtain ⟨q, hq⟩ := doParse_ok_findProp hsw
      have hset := findProp_set_self doc ("folders")
        (.arr (rws.map encodeStoredFolder))
        ⟨false, 4, if plat.isLinux || plat.isMacintosh then "\n" else "\r\n"⟩ q hq
      split
      · refine ⟨?_, ?_, ?_⟩
        · intro k hk1 hk2
          rw [findProp_remove_other _ _ _ hk2, findProp_set_other _ _ _ _ _ hk1]
        · rw [jsonRemoveProperty_trailing, jsonSetProperty_trailing]
        · refine ⟨q, ⟨q.key, q.trivia, .arr (rws.map encodeStoredFolder),
            some ⟨false, 4, if plat.isLinux || plat.isMacintosh then "\n" else "\r\n"⟩⟩,
            hq, ?_, rfl, rfl⟩
          rw [findProp_remove_other _ _ _ (by decide), hset]
      · refine ⟨?_, ?_, ?_⟩
        · intro k hk1 hk2
          rw [findProp_set_other _ _ _ _ _ hk1]
        · rw [jsonSetProperty_trailing]
        · exact ⟨q, ⟨q.key, q.trivia, .arr (rws.map encodeStoredFolder),
            some ⟨false, 4, if plat.isLinux || plat.isMacintosh then "\n" else "\r\n"⟩⟩,
            hq, hset, rfl, rfl⟩

/-- Witness for the minimal edit frame theorem. -/
theorem rewrite_minimal_edit_frame_witness :
    (rewriteWorkspaceFileForNewLocation ⟨false, false, true⟩ stdExtUri formattingDoc
        ⟨"file", "", "/ws/a.code-workspace"⟩ false ⟨"file", "", "/ws/b.code-workspace"⟩
      = .ok formattingDocOut) ∧
    (findProp formattingDocOut ("settings") = findProp formattingDoc ("settings")) ∧
    (formattingDocOut.trailing = formattingDoc.trailing) ∧
    (∃ q p, findProp formattingDoc ("folders") = some q ∧
      findProp formattingDocOut ("folders") = some p ∧ p.trivia = q.trivia ∧
      p.fmt = some ⟨false, 4,
        if (Platform.mk false false true).isLinux || (Platform.mk false false true).isMacintosh
        then "\n" else "\r\n"⟩) :=
  ⟨by decide,
   (rewrite_minimal_edit_frame ⟨false, false, true⟩ stdExtUri formattingDoc
     ⟨"file", "", "/ws/a.code-workspace"⟩ false ⟨"file", "", "/ws/b.code-workspace"⟩
     formattingDocOut (by decide)).1 ("settings") (by decide) (by decide),
   (rewrite_minimal_edit_frame ⟨false, false, true⟩ stdExtUri formattingDoc
     ⟨"file", "", "/ws/a.code-workspace"⟩ false ⟨"file", "", "/ws/b.code-workspace"⟩
     formattingDocOut (by decide)).2.1,
   (rewrite_minimal_edit_frame ⟨false, false, true⟩ stdExtUri formattingDoc
     ⟨"file", "", "/ws/a.code-workspace"⟩ false ⟨"file", "", "/ws/b.code-workspace"⟩
     formattingDocOut (by decide)).2.2⟩
